import Mathlib

/-!
Verification development for the youtube-sentiment-chatbot backend
(hierarchical multi-agent task router).

The definitions below are a shallow embedding of the Python source:

* `backend/app/core/state.py`         — the TypedDict conversation states
* `backend/app/core/session_manager.py` — `VideoSession` / `SessionManager`
* `backend/app/agents/agent_factory.py` — `agent_node`, `agent_node_with_docs`
* `backend/app/agents/supervisor.py`  — the router node output (a `next` update)
* `backend/app/graphs/research_graph.py`, `analysis_graph.py`, `main_graph.py`
  — graph wiring, entry/exit projections (`enter_research_chain`,
  `research_chain_with_docs`, `enter_sentiment_chain`, `join_graph`,
  `get_messages_and_documents`) and the LangGraph execution loop
* `backend/app/api/routes.py`         — the double drive of the main graph and
  error-event formatting, `backend/app/utils/helpers.py`.

External nondeterminism (LLM routing decisions, agent executor outputs) is
supplied by explicit oracle lists: the k-th entry is the result of the k-th
successful call.  An exhausted oracle list is reported as a capability
failure (in the real system every call either yields a value or raises; the
lists enumerate the values of the calls that succeed).

LangGraph channel semantics embedded here: a state field annotated with
`operator.add` (only `messages`) accumulates by list append; every other
field is a last-value channel, overwritten whenever a node update carries
the key.  A node update is a Python dict with optional keys, embedded as a
record of `Option` fields (`none` = key absent).  Conditional edges look the
emitted `next` value up in the branch map and raise on an unknown value;
execution raises `GraphRecursionError` when a run does not reach END within
`recursion_limit` (default 25) node steps.
-/

/-- langchain `BaseMessage`: content plus optional speaker name. -/
structure BaseMessage where
  content : String
  name : Option String
deriving DecidableEq, Repr

/-- `HumanMessage(content=c, name=n)` constructor used by the source. -/
def HumanMessage (content : String) (name : Option String) : BaseMessage :=
  { content := content, name := name }

/-- langchain `Document`: page content plus a metadata map
(embedded as an association list of string pairs). -/
structure Document where
  page_content : String
  metadata : List (String × String)
deriving DecidableEq, Repr

/-! ## Session store (`backend/app/core/session_manager.py`)

Timestamps are integers (the code uses `datetime.now()`; every operation
receives the current time explicitly).  `main_graph` and `bm25_retriever`
hold opaque artifacts whose contents the store never inspects, embedded as
`Option Unit` (`none` = Python `None`). -/

/-- `VideoSession` dataclass. -/
structure VideoSession where
  session_id : String
  video_id : String
  video_title : String
  channel_name : String
  created_at : Int
  last_accessed : Int
  main_graph : Option Unit
  documents : List Document
  bm25_retriever : Option Unit
  raw_blobs : List (String × String)
deriving DecidableEq, Repr

/-- The `_sessions` dict, embedded as an association list with unique keys
looked up first-match. -/
def lookupSession : List (String × VideoSession) → String → Option VideoSession
  | [], _ => none
  | p :: rest, id => if p.1 = id then some p.2 else lookupSession rest id

/-- Dict assignment `self._sessions[sid] = session` for a key already
present: replace the stored value. -/
def setSession : List (String × VideoSession) → String → VideoSession → List (String × VideoSession)
  | [], _, _ => []
  | p :: rest, id, v =>
      if p.1 = id then (p.1, v) :: setSession rest id v
      else p :: setSession rest id v

/-- `SessionManager`: the `_sessions` map and `_session_ttl`. -/
structure SessionManager where
  sessions : List (String × VideoSession)
  session_ttl : Int
deriving DecidableEq, Repr

/-- `SessionManager.delete_session`. -/
def delete_session (m : SessionManager) (session_id : String) : SessionManager :=
  { m with sessions := m.sessions.filter (fun p => p.1 ≠ session_id) }

/-- `SessionManager.get_session` (mutating, so it returns the result paired
with the post-call manager).  Expiry check `now - last_accessed > ttl`;
on survival the read bumps `last_accessed` to `now`. -/
def get_session (m : SessionManager) (now : Int) (session_id : String) :
    Option VideoSession × SessionManager :=
  match lookupSession m.sessions session_id with
  | none => (none, m)
  | some session =>
      if m.session_ttl < now - session.last_accessed then
        (none, delete_session m session_id)
      else
        let updated := { session with last_accessed := now }
        (some updated, { m with sessions := setSession m.sessions session_id updated })

/-- The optional keyword arguments of `SessionManager.update_session`
(`none` = argument left at its `None` default). -/
structure UpdateFields where
  main_graph : Option Unit
  documents : Option (List Document)
  bm25_retriever : Option Unit
  raw_blobs : Option (List (String × String))
deriving DecidableEq, Repr

/-- The field-by-field `if x is not None` assignments inside
`update_session`, ending with the unconditional `last_accessed` bump. -/
def update_fields (session : VideoSession) (f : UpdateFields) (now : Int) : VideoSession :=
  let s1 := match f.main_graph with
    | none => session
    | some g => { session with main_graph := some g }
  let s2 := match f.documents with
    | none => s1
    | some ds => { s1 with documents := ds }
  let s3 := match f.bm25_retriever with
    | none => s2
    | some r => { s2 with bm25_retriever := some r }
  let s4 := match f.raw_blobs with
    | none => s3
    | some b => { s3 with raw_blobs := b }
  { s4 with last_accessed := now }

/-- `SessionManager.update_session`: silently returns on an unknown id,
otherwise applies the non-`None` fields and bumps `last_accessed`.
No expiry check is performed. -/
def update_session (m : SessionManager) (now : Int) (session_id : String)
    (f : UpdateFields) : SessionManager :=
  match lookupSession m.sessions session_id with
  | none => m
  | some session =>
      { m with sessions := setSession m.sessions session_id (update_fields session f now) }

/-! Support lemmas on the association-list dictionary. -/

theorem lookupSession_filter_ne (l : List (String × VideoSession)) (id : String) :
    lookupSession (l.filter (fun p => p.1 ≠ id)) id = none := by
  induction l with
  | nil => rfl
  | cons p rest ih =>
      by_cases h : p.1 = id
      · rw [List.filter_cons_of_neg (by simp [h])]
        exact ih
      · rw [List.filter_cons_of_pos (by simp [h])]
        simp only [lookupSession, if_neg h]
        exact ih

theorem lookupSession_setSession (l : List (String × VideoSession)) (id : String)
    (v : VideoSession) (s : VideoSession) (h : lookupSession l id = some s) :
    lookupSession (setSession l id v) id = some v := by
  induction l with
  | nil => simp [lookupSession] at h
  | cons p rest ih =>
      by_cases hp : p.1 = id
      · simp [setSession, hp, lookupSession]
      · simp [lookupSession, hp] at h
        simp [setSession, hp, lookupSession, ih h]

/-- C4: `get_session` is a sliding-expiry read.  With the session stored
under `id`: when the call time is more than TTL past the last access the
read returns `None` and deletes the entry; within the TTL it returns the
session with `last_accessed` set to `now` and persists that bump; and any
session it does return had not lapsed at read time and carries the fresh
access time. -/
theorem get_session_sliding_expiry
    (m : SessionManager) (now : Int) (id : String) (s : VideoSession)
    (h : lookupSession m.sessions id = some s) :
    (m.session_ttl < now - s.last_accessed →
        (get_session m now id).1 = none ∧
        lookupSession (get_session m now id).2.sessions id = none) ∧
    (now - s.last_accessed ≤ m.session_ttl →
        (get_session m now id).1 = some { s with last_accessed := now } ∧
        lookupSession (get_session m now id).2.sessions id =
          some { s with last_accessed := now }) ∧
    (∀ r, (get_session m now id).1 = some r →
        now - s.last_accessed ≤ m.session_ttl ∧ r.last_accessed = now) := by
  refine ⟨fun hexp => ?_, fun hfresh => ?_, fun r hr => ?_⟩
  · constructor
    · simp [get_session, h, if_pos hexp]
    · simp only [get_session, h, if_pos hexp, delete_session]
      exact lookupSession_filter_ne m.sessions id
  · have hnot : ¬ m.session_ttl < now - s.last_accessed := not_lt.mpr hfresh
    constructor
    · simp [get_session, h, if_neg hnot]
    · simp only [get_session, h, if_neg hnot]
      exact lookupSession_setSession m.sessions id _ s h
  · by_cases hexp : m.session_ttl < now - s.last_accessed
    · simp [get_session, h, if_pos hexp] at hr
    · refine ⟨not_lt.mp hexp, ?_⟩
      simp [get_session, h, if_neg hexp] at hr
      simp [← hr]

/-- A concrete stored session used to instantiate the store theorems. -/
def sampleSession : VideoSession :=
  { session_id := "sid", video_id := "v", video_title := "t", channel_name := "c",
    created_at := 0, last_accessed := 10, main_graph := none, documents := [],
    bm25_retriever := none, raw_blobs := [] }

/-- A concrete one-entry store with a TTL of 24 time units. -/
def sampleManager : SessionManager :=
  { sessions := [("sid", sampleSession)], session_ttl := 24 }

/-- The empty `update_session` argument set (all keyword arguments `None`)
except for an attached graph artifact. -/
def sampleUpdate : UpdateFields :=
  { main_graph := some (), documents := none, bm25_retriever := none, raw_blobs := none }

/-- Closed instance of `get_session_sliding_expiry` on a concrete store:
a read 35 time units after the last access, against a TTL of 24, misses and
deletes the entry. -/
theorem get_session_sliding_expiry_witness :
    lookupSession sampleManager.sessions "sid" = some sampleSession ∧
    sampleManager.session_ttl < 45 - sampleSession.last_accessed ∧
    (get_session sampleManager 45 "sid").1 = none ∧
    lookupSession (get_session sampleManager 45 "sid").2.sessions "sid" = none := by
  refine ⟨by decide, by decide, ?_⟩
  exact (get_session_sliding_expiry sampleManager 45 "sid" sampleSession (by decide)).1
    (by decide)

/-- C10: `update_session` is a silent no-op on an unknown id; on a present
id — with no expiry check, so in particular on an expired-but-uncollected
session — it applies the requested fields, sets `last_accessed := now`, and
a subsequent `get_session` within TTL of that bump returns the session
again. -/
theorem update_session_semantics
    (m : SessionManager) (now now2 : Int) (id : String) (f : UpdateFields) :
    (lookupSession m.sessions id = none → update_session m now id f = m) ∧
    (∀ s, lookupSession m.sessions id = some s →
        lookupSession (update_session m now id f).sessions id =
          some (update_fields s f now) ∧
        (update_fields s f now).last_accessed = now ∧
        (now2 - now ≤ m.session_ttl →
          (get_session (update_session m now id f) now2 id).1 =
            some { update_fields s f now with last_accessed := now2 })) := by
  constructor
  · intro h
    simp [update_session, h]
  · intro s hs
    have hlook : lookupSession (update_session m now id f).sessions id =
        some (update_fields s f now) := by
      simp only [update_session, hs]
      exact lookupSession_setSession m.sessions id _ s hs
    refine ⟨hlook, by simp [update_fields], fun hfresh => ?_⟩
    have httl : (update_session m now id f).session_ttl = m.session_ttl := by
      simp [update_session, hs]
    have hlast : (update_fields s f now).last_accessed = now := by
      simp [update_fields]
    have hnot : ¬ (update_session m now id f).session_ttl <
        now2 - (update_fields s f now).last_accessed := by
      rw [httl, hlast]
      exact not_lt.mpr hfresh
    simp [get_session, hlook, if_neg hnot]

/-- Closed instance of `update_session_semantics`: updating at time 100 a
session last accessed at time 10 (expired for TTL 24) still succeeds, and a
read at time 101 finds it again. -/
theorem update_session_semantics_witness :
    sampleManager.session_ttl < 100 - sampleSession.last_accessed ∧
    lookupSession (update_session sampleManager 100 "sid" sampleUpdate).sessions "sid" =
      some (update_fields sampleSession sampleUpdate 100) ∧
    (get_session (update_session sampleManager 100 "sid" sampleUpdate) 101 "sid").1 =
      some { update_fields sampleSession sampleUpdate 100 with last_accessed := 101 } := by
  have h := (update_session_semantics sampleManager 100 101 "sid" sampleUpdate).2
    sampleSession (by decide)
  exact ⟨by decide, h.1, h.2.2 (by decide)⟩

/-! ## Conversation states (`backend/app/core/state.py`) -/

/-- `ResearchTeamState`: messages accumulate (`operator.add`), the other
fields are last-value channels. -/
structure ResearchTeamState where
  messages : List BaseMessage
  documents : List Document
  team_members : List String
  next : String
deriving DecidableEq, Repr

/-- `SentimentState` (the Analysis team state): messages accumulate,
`documents` is a plain last-value channel, `team_members` is a string. -/
structure SentimentState where
  messages : List BaseMessage
  documents : List Document
  team_members : String
  next : String
deriving DecidableEq, Repr

/-- `SuperState` (the SuperSupervisor state): messages accumulate,
`documents` and `next` are last-value channels. -/
structure SuperState where
  messages : List BaseMessage
  documents : List Document
  next : String
deriving DecidableEq, Repr

/-- A node return value: a partial state update (a Python dict whose keys
are optional).  `none` models an absent key, which leaves the channel
untouched. -/
structure StateUpdate where
  messages : Option (List BaseMessage)
  documents : Option (List Document)
  next : Option String
deriving DecidableEq, Repr

/-- Apply a node update to a `ResearchTeamState` with LangGraph channel
semantics: `messages` appends, the rest overwrite when present. -/
def applyResearchUpdate (s : ResearchTeamState) (u : StateUpdate) : ResearchTeamState :=
  { messages := s.messages ++ u.messages.getD [],
    documents := u.documents.getD s.documents,
    team_members := s.team_members,
    next := u.next.getD s.next }

/-- Apply a node update to a `SentimentState` (same channel semantics). -/
def applySentimentUpdate (s : SentimentState) (u : StateUpdate) : SentimentState :=
  { messages := s.messages ++ u.messages.getD [],
    documents := u.documents.getD s.documents,
    team_members := s.team_members,
    next := u.next.getD s.next }

/-- Apply a node update to a `SuperState` (same channel semantics). -/
def applySuperUpdate (s : SuperState) (u : StateUpdate) : SuperState :=
  { messages := s.messages ++ u.messages.getD [],
    documents := u.documents.getD s.documents,
    next := u.next.getD s.next }

/-! ## Agent nodes (`backend/app/agents/agent_factory.py`) -/

/-- One entry of `result["intermediate_steps"]`: the observation a tool
call produced.  `withDocs` models a dict observation containing a
`documents` key (the `retrieve_information` tool); `plain` models every
other observation shape. -/
inductive Observation where
  | plain (text : String)
  | withDocs (response : String) (documents : List Document)
deriving DecidableEq, Repr

/-- The outputs of one `AgentExecutor` call consumed from the oracle:
`output` plus `intermediate_steps` (with `return_intermediate_steps=True`).
`AgentExecutor.invoke` is `Chain.invoke`, which returns
`{**inputs, **outputs}` — the dict a node sees also echoes the input
state's keys.  The embedding passes that echoed state explicitly to the
node wrappers instead of storing it here. -/
structure AgentResult where
  output : String
  intermediate_steps : List (String × Observation)
deriving DecidableEq, Repr

/-- `agent_node(state, agent, name)` with `result = agent.invoke(state)`:
wraps the output as one attributed message and passes through
`result.get("documents", [])`.  Because `Chain.invoke` returns
`{**inputs, **outputs}`, the `documents` key resolves to the input state's
documents whenever that channel is set (the executor's own outputs never
carry the key); `state_documents` is that echoed value, an empty list when
the channel is unset.  The returned dict always contains the key. -/
def agent_node (state_documents : List Document) (result : AgentResult)
    (name : String) : StateUpdate :=
  { messages := some [HumanMessage result.output (some name)],
    documents := some state_documents,
    next := none }

/-- The document-extraction loop of `agent_node_with_docs`: scan
`intermediate_steps` for dict observations carrying a `documents` key;
each hit reassigns the local variable, so the last hit wins. -/
def extract_documents (steps : List (String × Observation)) : List Document :=
  steps.foldl
    (fun acc p =>
      match p.2 with
      | Observation.withDocs _ ds => ds
      | Observation.plain _ => acc)
    []

/-- `agent_node_with_docs(state, agent, name)`: like `agent_node` but for
the name `CommentFinder` it recovers the documents from the tool
observations, and falls back to `state.get("documents", [])` when the
extracted list is empty (`documents if documents else ...`).
`state_documents` is that fallback read of the current state. -/
def agent_node_with_docs (state_documents : List Document) (result : AgentResult)
    (name : String) : StateUpdate :=
  let documents := if name = "CommentFinder" then extract_documents result.intermediate_steps
    else []
  { messages := some [HumanMessage result.output (some name)],
    documents := some (if documents.isEmpty then state_documents else documents),
    next := none }

/-- The node built by `create_team_supervisor`: its chain ends in a parser
returning `{"next": choice}`, so as a graph node it updates only the
`next` channel.  The choice itself comes from the LLM (oracle). -/
def supervisorUpdate (choice : String) : StateUpdate :=
  { messages := none, documents := none, next := some choice }

/-! ## Team graphs: entry/exit projections and the execution loop -/

/-- Errors a turn can end with.  `unknownRoute` models the LangGraph
exception raised when a conditional edge value is missing from the branch
map; `recursionLimit` models `GraphRecursionError`; `emptyMessages` models
the `IndexError` of `messages[-1]` on an empty log; `capabilityFailure`
models a failed LLM/tool call (including an exhausted oracle list). -/
inductive RunError where
  | unknownRoute (name : String)
  | recursionLimit
  | emptyMessages
  | capabilityFailure (msg : String)
deriving DecidableEq, Repr

/-- The LangGraph default `recursion_limit`; none of the `compile()` or
`invoke` calls in the source overrides it. -/
def default_recursion_limit : Nat := 25

/-- The Pregel loop of the compiled Research team graph
(`build_research_graph`): enter at `ResearchSupervisor`; its `next` update
is applied, the conditional edge map `{VideoSearch, CommentFinder,
FINISH}` is consulted; a member node runs `agent_node` /
`agent_node_with_docs` and returns to the supervisor; an unknown value
raises.  `decisions` are the successive supervisor choices, `acts` the
successive agent results; `steps` counts executed nodes against `limit`. -/
def runResearchAux : List String → List AgentResult → Nat → Nat → ResearchTeamState →
    Except RunError ResearchTeamState
  | [], _, _, _, _ => Except.error (RunError.capabilityFailure "ResearchSupervisor")
  | choice :: ds, acts, steps, limit, s =>
    if limit ≤ steps then Except.error RunError.recursionLimit else
    let s1 := applyResearchUpdate s (supervisorUpdate choice)
    if choice = "FINISH" then Except.ok s1
    else if choice = "VideoSearch" then
      if limit ≤ steps + 1 then Except.error RunError.recursionLimit else
      match acts with
      | [] => Except.error (RunError.capabilityFailure "VideoSearch")
      | r :: rs =>
          runResearchAux ds rs (steps + 2) limit
            (applyResearchUpdate s1 (agent_node s1.documents r "VideoSearch"))
    else if choice = "CommentFinder" then
      if limit ≤ steps + 1 then Except.error RunError.recursionLimit else
      match acts with
      | [] => Except.error (RunError.capabilityFailure "CommentFinder")
      | r :: rs =>
          runResearchAux ds rs (steps + 2) limit
            (applyResearchUpdate s1 (agent_node_with_docs s1.documents r "CommentFinder"))
    else Except.error (RunError.unknownRoute choice)

/-- The Pregel loop of the compiled Analysis team graph
(`build_analysis_graph`): supervisor `AnalysisSupervisor`, members `Topic`
and `Sentiment`, both plain `agent_node` wrappers. -/
def runAnalysisAux : List String → List AgentResult → Nat → Nat → SentimentState →
    Except RunError SentimentState
  | [], _, _, _, _ => Except.error (RunError.capabilityFailure "AnalysisSupervisor")
  | choice :: ds, acts, steps, limit, s =>
    if limit ≤ steps then Except.error RunError.recursionLimit else
    let s1 := applySentimentUpdate s (supervisorUpdate choice)
    if choice = "FINISH" then Except.ok s1
    else if choice = "Topic" then
      if limit ≤ steps + 1 then Except.error RunError.recursionLimit else
      match acts with
      | [] => Except.error (RunError.capabilityFailure "Topic")
      | r :: rs =>
          runAnalysisAux ds rs (steps + 2) limit
            (applySentimentUpdate s1 (agent_node s1.documents r "Topic"))
    else if choice = "Sentiment" then
      if limit ≤ steps + 1 then Except.error RunError.recursionLimit else
      match acts with
      | [] => Except.error (RunError.capabilityFailure "Sentiment")
      | r :: rs =>
          runAnalysisAux ds rs (steps + 2) limit
            (applySentimentUpdate s1 (agent_node s1.documents r "Sentiment"))
    else Except.error (RunError.unknownRoute choice)

/-- `enter_research_chain` (`research_graph.py`): the research sub-graph is
invoked with only the single wrapped message; the `documents` channel
starts empty and no member context is placed in the state. -/
def enter_research_chain (message : String) : ResearchTeamState :=
  { messages := [HumanMessage message none], documents := [], team_members := [],
    next := "" }

/-- The dict `research_chain_with_docs` returns: the full inner message
history plus `result.get("documents", state.get("documents", []))`.  Both
fallbacks resolve to the inner run's document list here because the entry
state carries no documents and the channel starts empty. -/
structure ChainResult where
  messages : List BaseMessage
  documents : List Document
deriving DecidableEq, Repr

/-- `research_chain_with_docs` applied to the inner run's final state. -/
def research_chain_with_docs (result : ResearchTeamState) : ChainResult :=
  { messages := result.messages, documents := result.documents }

/-- `enter_sentiment_chain` (`analysis_graph.py`): wraps the handed-down
message, copies the handed-down documents, and injects the member list as
the comma-joined `team_members` string. -/
def enter_sentiment_chain (message : String) (documents : List Document) : SentimentState :=
  { messages := [HumanMessage message none], documents := documents,
    team_members := "Topic, Sentiment", next := "" }

/-- `join_graph` (`main_graph.py`): keep only the last inner message, and
include the `documents` key only when the inner document list is truthy
(non-empty).  `none` models the `IndexError` of `messages[-1]` on an empty
inner log. -/
def join_graph (response : ChainResult) : Option StateUpdate :=
  match response.messages.getLast? with
  | none => none
  | some m =>
      some { messages := some [m],
             documents := if response.documents.isEmpty then none else some response.documents,
             next := none }

/-! ## Main graph (`backend/app/graphs/main_graph.py`) and the driver -/

/-- `get_last_message`: `state["messages"][-1].content`; `none` models the
`IndexError` on an empty log. -/
def get_last_message (state : SuperState) : Option String :=
  (state.messages.getLast?).map (fun m => m.content)

/-- The per-team-invocation nondeterminism: supervisor decisions and agent
results consumed by one inner team run. -/
structure TeamOracle where
  decisions : List String
  acts : List AgentResult
deriving DecidableEq, Repr

/-- The outer `Research team` node:
`get_last_message | research_chain | join_graph`, where `research_chain`
is `enter_research_chain | research_chain_with_docs` around the compiled
research graph (invoked with its own fresh default recursion limit). -/
def researchTeamNode (o : TeamOracle) (s : SuperState) : Except RunError StateUpdate :=
  match get_last_message s with
  | none => Except.error RunError.emptyMessages
  | some message =>
      match runResearchAux o.decisions o.acts 0 default_recursion_limit
          (enter_research_chain message) with
      | Except.error e => Except.error e
      | Except.ok result =>
          match join_graph (research_chain_with_docs result) with
          | none => Except.error RunError.emptyMessages
          | some u => Except.ok u

/-- The outer `Analysis team` node, `get_messages_and_documents`: read the
last outer message and the outer `documents`, run the analysis chain
(`enter_sentiment_chain` then the compiled analysis graph), and join the
result back with `join_graph`. -/
def get_messages_and_documents (o : TeamOracle) (s : SuperState) :
    Except RunError StateUpdate :=
  match get_last_message s with
  | none => Except.error RunError.emptyMessages
  | some message =>
      match runAnalysisAux o.decisions o.acts 0 default_recursion_limit
          (enter_sentiment_chain message s.documents) with
      | Except.error e => Except.error e
      | Except.ok result =>
          match join_graph { messages := result.messages, documents := result.documents } with
          | none => Except.error RunError.emptyMessages
          | some u => Except.ok u

/-- The Pregel loop of the compiled main graph (`build_main_graph`):
supervisor `SuperSupervisor`, team nodes wrapped as single members, branch
map `{Research team, Analysis team, FINISH}`; each executed team node
consumes one `TeamOracle`. -/
def runSuperAux : List String → List TeamOracle → Nat → Nat → SuperState →
    Except RunError SuperState
  | [], _, _, _, _ => Except.error (RunError.capabilityFailure "SuperSupervisor")
  | choice :: ds, teams, steps, limit, s =>
    if limit ≤ steps then Except.error RunError.recursionLimit else
    let s1 := applySuperUpdate s (supervisorUpdate choice)
    if choice = "FINISH" then Except.ok s1
    else if choice = "Research team" then
      if limit ≤ steps + 1 then Except.error RunError.recursionLimit else
      match teams with
      | [] => Except.error (RunError.capabilityFailure "Research team")
      | o :: os =>
          match researchTeamNode o s1 with
          | Except.error e => Except.error e
          | Except.ok u => runSuperAux ds os (steps + 2) limit (applySuperUpdate s1 u)
    else if choice = "Analysis team" then
      if limit ≤ steps + 1 then Except.error RunError.recursionLimit else
      match teams with
      | [] => Except.error (RunError.capabilityFailure "Analysis team")
      | o :: os =>
          match get_messages_and_documents o s1 with
          | Except.error e => Except.error e
          | Except.ok u => runSuperAux ds os (steps + 2) limit (applySuperUpdate s1 u)
    else Except.error (RunError.unknownRoute choice)

/-- The nondeterminism consumed by one full drive of the main graph. -/
structure DriveOracle where
  decisions : List String
  teams : List TeamOracle
deriving DecidableEq, Repr

/-- One `main_graph` invocation against the `MemorySaver` checkpoint of a
thread: the input `{"messages": [HumanMessage(question)]}` is merged into
the checkpointed channels (messages append), then the graph runs from the
entry point; on success the final state becomes the new checkpoint. -/
def invokeWithCheckpoint (o : DriveOracle) (checkpoint : SuperState)
    (question : String) : Except RunError SuperState :=
  runSuperAux o.decisions o.teams 0 default_recursion_limit
    { checkpoint with messages := checkpoint.messages ++ [HumanMessage question none] }

/-- Steps 7 and 8 of `analyze_video_stream`: the streaming pass
(`main_graph.astream(initial_state, config)`) followed by one more full
run (`main_graph.ainvoke(initial_state, config)`) with the same input and
the same `thread_id`.  The second pass starts from the checkpoint the
first pass committed. -/
def double_drive (o1 o2 : DriveOracle) (checkpoint : SuperState) (question : String) :
    Except RunError SuperState :=
  match invokeWithCheckpoint o1 checkpoint question with
  | Except.error e => Except.error e
  | Except.ok c1 => invokeWithCheckpoint o2 c1 question

/-! ## Error events (`routes.py` exception handler, `helpers.py`) -/

/-- A streamed error event, `{"type": "error", "content": ...}`. -/
structure ErrorEvent where
  type : String
  content : String
deriving DecidableEq, Repr

/-- `format_error_message` from `helpers.py`. -/
def format_error_message (error : String) : ErrorEvent :=
  { type := "error", content := error }

/-- `str(e)` of the exception behind each `RunError`: Python renders
distinct exception classes with distinct texts (`GraphRecursionError`
for the budget, the failing call's own message otherwise). -/
def str_of_exception : RunError → String
  | RunError.unknownRoute name => "ValueError: unknown branch " ++ name
  | RunError.recursionLimit => "GraphRecursionError: recursion limit of 25 reached"
  | RunError.emptyMessages => "IndexError: list index out of range"
  | RunError.capabilityFailure msg => "CapabilityError: " ++ msg

/-- The `except` handler of `analyze_video_stream`:
`format_error_message(f"Error during analysis: {str(e)}")`. -/
def analysis_error_event (e : RunError) : ErrorEvent :=
  format_error_message ("Error during analysis: " ++ str_of_exception e)

/-! ## Graph wiring as data (the `add_node` / `add_edge` /
`add_conditional_edges` / `set_entry_point` calls) -/

/-- Target of a conditional-edge branch: an ordinary node or `END`. -/
inductive NodeOrEnd where
  | node (name : String)
  | terminal
deriving DecidableEq, Repr

/-- A `StateGraph` as assembled by a build function: nodes, unconditional
edges, the single conditional-edge source with its branch map, entry. -/
structure StateGraphDef where
  entry_point : String
  nodes : List String
  edges : List (String × String)
  conditional_source : String
  conditional_map : List (String × NodeOrEnd)
deriving DecidableEq, Repr

/-- The wiring of `build_research_graph`. -/
def research_graph_def : StateGraphDef :=
  { entry_point := "ResearchSupervisor",
    nodes := ["VideoSearch", "CommentFinder", "ResearchSupervisor"],
    edges := [("VideoSearch", "ResearchSupervisor"), ("CommentFinder", "ResearchSupervisor")],
    conditional_source := "ResearchSupervisor",
    conditional_map := [("VideoSearch", NodeOrEnd.node "VideoSearch"),
      ("CommentFinder", NodeOrEnd.node "CommentFinder"), ("FINISH", NodeOrEnd.terminal)] }

/-- The wiring of `build_analysis_graph`. -/
def analysis_graph_def : StateGraphDef :=
  { entry_point := "AnalysisSupervisor",
    nodes := ["Topic", "Sentiment", "AnalysisSupervisor"],
    edges := [("Topic", "AnalysisSupervisor"), ("Sentiment", "AnalysisSupervisor")],
    conditional_source := "AnalysisSupervisor",
    conditional_map := [("Topic", NodeOrEnd.node "Topic"),
      ("Sentiment", NodeOrEnd.node "Sentiment"), ("FINISH", NodeOrEnd.terminal)] }

/-- The wiring of `build_main_graph`. -/
def main_graph_def : StateGraphDef :=
  { entry_point := "SuperSupervisor",
    nodes := ["Research team", "Analysis team", "SuperSupervisor"],
    edges := [("Research team", "SuperSupervisor"), ("Analysis team", "SuperSupervisor")],
    conditional_source := "SuperSupervisor",
    conditional_map := [("Analysis team", NodeOrEnd.node "Analysis team"),
      ("Research team", NodeOrEnd.node "Research team"), ("FINISH", NodeOrEnd.terminal)] }

/-! ## Claims about document propagation and team boundaries -/

/-- A concrete retrieved document used in closed instances. -/
def sampleDoc : Document :=
  { page_content := "great video", metadata := [("type", "comment")] }

/-- C1: at every exit from a team sub-machine, `join_graph` includes the
`documents` key only when the inner run produced a non-empty set, so the
outer channel is replaced exactly then and left untouched otherwise; and
in a conversation whose Research-team run yields documents `D ≠ []` and
whose later Analysis-team run yields an empty set, the outer document set
after the Analysis-team run (and at FINISH) equals `D`. -/
theorem team_exit_document_merge :
    (∀ (s : SuperState) (inner : ChainResult) (u : StateUpdate),
        join_graph inner = some u → inner.documents = [] →
        (applySuperUpdate s u).documents = s.documents) ∧
    (∀ (s : SuperState) (inner : ChainResult) (u : StateUpdate),
        join_graph inner = some u → inner.documents ≠ [] →
        (applySuperUpdate s u).documents = inner.documents) ∧
    (∀ (s : SuperState) (o1 o2 : TeamOracle) (u1 u2 : StateUpdate) (D : List Document),
        researchTeamNode o1 (applySuperUpdate s (supervisorUpdate "Research team")) =
          Except.ok u1 →
        u1.documents = some D → D ≠ [] →
        get_messages_and_documents o2
          (applySuperUpdate
            (applySuperUpdate (applySuperUpdate s (supervisorUpdate "Research team")) u1)
            (supervisorUpdate "Analysis team")) = Except.ok u2 →
        u2.documents = none →
        ∃ final, runSuperAux ["Research team", "Analysis team", "FINISH"] [o1, o2] 0
            default_recursion_limit s = Except.ok final ∧ final.documents = D) := by
  refine ⟨?_, ?_, ?_⟩
  · intro s inner u hj he
    cases hl : inner.messages.getLast? with
    | none => simp [join_graph, hl] at hj
    | some m =>
        simp [join_graph, hl, he] at hj
        subst hj
        simp [applySuperUpdate]
  · intro s inner u hj hne
    have hb : inner.documents.isEmpty = false := by
      cases hd : inner.documents with
      | nil => exact absurd hd hne
      | cons a l => rfl
    cases hl : inner.messages.getLast? with
    | none => simp [join_graph, hl] at hj
    | some m =>
        simp [join_graph, hl, hb] at hj
        subst hj
        simp [applySuperUpdate]
  · intro s o1 o2 u1 u2 D h1 hd hD h2 hn
    simp only [runSuperAux, default_recursion_limit, h1, h2]
    norm_num
    exact ⟨_, rfl, by simp [applySuperUpdate, supervisorUpdate, hn, hd]⟩

/-- A concrete outer state holding one gathered document. -/
def c1_outer_state : SuperState :=
  { messages := [HumanMessage "q" none], documents := [sampleDoc], next := "Analysis team" }

/-- A concrete inner chain result with an answer and no documents. -/
def c1_inner_result : ChainResult :=
  { messages := [HumanMessage "done" none], documents := [] }

/-- Closed instance of `team_exit_document_merge`: an inner run ending in
one answer message with no documents leaves a one-document outer set
untouched. -/
theorem team_exit_document_merge_witness :
    join_graph c1_inner_result =
      some { messages := some [HumanMessage "done" none], documents := none, next := none } ∧
    (applySuperUpdate c1_outer_state
        { messages := some [HumanMessage "done" none], documents := none,
          next := none }).documents = c1_outer_state.documents := by
  refine ⟨by decide, ?_⟩
  exact team_exit_document_merge.1 c1_outer_state c1_inner_result _ (by decide) (by decide)

/-- C6: a completed team run re-enters the outer log as exactly one
message, namely the last message of the inner history: `join_graph` emits
a one-element `messages` update and the outer `operator.add` channel
appends exactly it. -/
theorem team_exit_appends_exactly_last_message :
    ∀ (s : SuperState) (inner : ChainResult) (lm : BaseMessage) (u : StateUpdate),
      inner.messages.getLast? = some lm →
      join_graph inner = some u →
      u.messages = some [lm] ∧
      (applySuperUpdate s u).messages = s.messages ++ [lm] := by
  intro s inner lm u hl hj
  simp [join_graph, hl] at hj
  subst hj
  exact ⟨rfl, by simp [applySuperUpdate]⟩

/-- Closed instance of `team_exit_appends_exactly_last_message` on a
two-message inner history. -/
theorem team_exit_appends_exactly_last_message_witness :
    ({ messages := [HumanMessage "search results" (some "VideoSearch"),
        HumanMessage "summary" (some "CommentFinder")], documents := [] } :
      ChainResult).messages.getLast? = some (HumanMessage "summary" (some "CommentFinder")) ∧
    (applySuperUpdate { messages := [HumanMessage "q" none], documents := [], next := "" }
      { messages := some [HumanMessage "summary" (some "CommentFinder")], documents := none,
        next := none }).messages =
      [HumanMessage "q" none, HumanMessage "summary" (some "CommentFinder")] := by
  refine ⟨by decide, ?_⟩
  have h := team_exit_appends_exactly_last_message
    { messages := [HumanMessage "q" none], documents := [], next := "" }
    { messages := [HumanMessage "search results" (some "VideoSearch"),
        HumanMessage "summary" (some "CommentFinder")], documents := [] }
    (HumanMessage "summary" (some "CommentFinder"))
    { messages := some [HumanMessage "summary" (some "CommentFinder")], documents := none,
      next := none } (by decide) (by decide)
  exact h.2

/-! ## Claims about team entry (C2) -/

/-- A system-level state with a two-message history, one gathered
document, and a pending routing choice. -/
def c2_super_state : SuperState :=
  { messages := [HumanMessage "what is the sentiment?" none,
      HumanMessage "collected comments" (some "CommentFinder")],
    documents := [sampleDoc],
    next := "Research team" }

/-- C2 fails on the code: entering the Research team projects only the
content of the last outer message (the inner log is a one-message log, not
the outer log) and passes no documents at all. -/
theorem team_entry_counterexample :
    get_last_message c2_super_state = some "collected comments" ∧
    (enter_research_chain "collected comments").messages ≠ c2_super_state.messages ∧
    (enter_research_chain "collected comments").documents ≠ c2_super_state.documents := by
  refine ⟨by decide, by decide, by decide⟩

/-- C2 as amended: entering a team hands down a single fresh human message
carrying the content of the last system-level message (history and
attribution are dropped); the Analysis-team entry copies the system-level
document set and injects the member list, while the Research-team entry
starts from an empty document set and injects no member context. -/
theorem team_entry_projection :
    ∀ (s : SuperState) (m : BaseMessage), s.messages.getLast? = some m →
      get_last_message s = some m.content ∧
      (enter_research_chain m.content).messages = [HumanMessage m.content none] ∧
      (enter_research_chain m.content).documents = [] ∧
      (enter_research_chain m.content).team_members = [] ∧
      (enter_sentiment_chain m.content s.documents).messages = [HumanMessage m.content none] ∧
      (enter_sentiment_chain m.content s.documents).documents = s.documents ∧
      (enter_sentiment_chain m.content s.documents).team_members = "Topic, Sentiment" := by
  intro s m h
  simp [get_last_message, h, enter_research_chain, enter_sentiment_chain]

/-- Closed instance of `team_entry_projection` at `c2_super_state`. -/
theorem team_entry_projection_witness :
    c2_super_state.messages.getLast? =
      some (HumanMessage "collected comments" (some "CommentFinder")) ∧
    (enter_sentiment_chain "collected comments" c2_super_state.documents).documents =
      c2_super_state.documents := by
  refine ⟨by decide, ?_⟩
  exact (team_entry_projection c2_super_state
    (HumanMessage "collected comments" (some "CommentFinder")) (by decide)).2.2.2.2.2.1

/-! ## C3: a capability producing no documents never clears team documents -/

/-- An Analysis-team state that carries a document handed over from the
Research team. -/
def c3_state : SentimentState :=
  { messages := [HumanMessage "analyze the comments" none],
    documents := [sampleDoc],
    team_members := "Topic, Sentiment",
    next := "Sentiment" }

/-- A Sentiment/Topic `AgentExecutor` output: an answer and no tool
observations carrying documents. -/
def c3_result : AgentResult :=
  { output := "Overall sentiment is positive", intermediate_steps := [] }

/-- C3: a capability node whose invocation produced no documents of its
own leaves the team document set exactly as it was.  `agent_node`'s
`result.get("documents", [])` resolves to the echoed input documents, so
the update rewrites the same list into the last-value channel; the
CommentFinder wrapper falls back to the state documents when its
extraction is empty; and consequently a whole Analysis-team run (whose
members are all `agent_node` wrappers) returns its entry document set
unchanged — in particular the documents received from the Research team
survive Sentiment and Topic invocations. -/
theorem agent_node_preserves_documents :
    (∀ (s : SentimentState) (r : AgentResult) (name : String),
        (applySentimentUpdate s (agent_node s.documents r name)).documents = s.documents) ∧
    (∀ (s : ResearchTeamState) (r : AgentResult),
        (applyResearchUpdate s (agent_node s.documents r "VideoSearch")).documents =
          s.documents) ∧
    (∀ (s : ResearchTeamState) (r : AgentResult),
        extract_documents r.intermediate_steps = [] →
        (applyResearchUpdate s (agent_node_with_docs s.documents r "CommentFinder")).documents =
          s.documents) ∧
    (∀ (ds : List String) (acts : List AgentResult) (steps limit : Nat)
        (s r : SentimentState),
        runAnalysisAux ds acts steps limit s = Except.ok r → r.documents = s.documents) := by
  refine ⟨?_, ?_, ?_, ?_⟩
  · intro s r name
    simp [applySentimentUpdate, agent_node]
  · intro s r
    simp [applyResearchUpdate, agent_node]
  · intro s r hx
    simp [applyResearchUpdate, agent_node_with_docs, hx]
  · intro ds
    induction ds with
    | nil =>
        intro acts steps limit s r h
        simp [runAnalysisAux] at h
    | cons choice ds ih =>
        intro acts steps limit s r h
        simp only [runAnalysisAux] at h
        by_cases h0 : limit ≤ steps
        · rw [if_pos h0] at h
          cases h
        · rw [if_neg h0] at h
          by_cases hF : choice = "FINISH"
          · rw [if_pos hF] at h
            cases h
            simp [applySentimentUpdate, supervisorUpdate]
          · rw [if_neg hF] at h
            by_cases hT : choice = "Topic"
            · rw [if_pos hT] at h
              by_cases h1 : limit ≤ steps + 1
              · rw [if_pos h1] at h
                cases h
              · rw [if_neg h1] at h
                cases acts with
                | nil => cases h
                | cons a rs =>
                    dsimp only at h
                    have hr := ih rs (steps + 2) limit _ r h
                    rw [hr]
                    simp [applySentimentUpdate, agent_node, supervisorUpdate]
            · rw [if_neg hT] at h
              by_cases hS : choice = "Sentiment"
              · rw [if_pos hS] at h
                by_cases h1 : limit ≤ steps + 1
                · rw [if_pos h1] at h
                  cases h
                · rw [if_neg h1] at h
                  cases acts with
                  | nil => cases h
                  | cons a rs =>
                      dsimp only at h
                      have hr := ih rs (steps + 2) limit _ r h
                      rw [hr]
                      simp [applySentimentUpdate, agent_node, supervisorUpdate]
              · rw [if_neg hS] at h
                cases h

/-- The final state of a concrete Analysis-team run (Sentiment once, then
FINISH) started from `c3_state`. -/
def c3_final : SentimentState :=
  { messages := [HumanMessage "analyze the comments" none,
      HumanMessage "Overall sentiment is positive" (some "Sentiment")],
    documents := [sampleDoc],
    team_members := "Topic, Sentiment",
    next := "FINISH" }

/-- Closed instance of `agent_node_preserves_documents`: a Sentiment
invocation inside an Analysis-team run carrying one document completes
with the document still present. -/
theorem agent_node_preserves_documents_witness :
    runAnalysisAux ["Sentiment", "FINISH"] [c3_result] 0 default_recursion_limit c3_state =
      Except.ok c3_final ∧
    c3_final.documents = c3_state.documents ∧
    c3_state.documents = [sampleDoc] := by
  refine ⟨rfl, ?_, rfl⟩
  exact agent_node_preserves_documents.2.2.2 ["Sentiment", "FINISH"] [c3_result] 0
    default_recursion_limit c3_state c3_final rfl

/-! ## C5: unknown routing choices are fatal -/

/-- C5: at each of the three graph levels, a router choice outside the
branch map (the member names plus `FINISH`) makes the run raise an
unknown-route error for that turn — an `Except.error`, never a silent
transition to the terminal state or to some member. -/
theorem unknown_route_is_fatal :
    (∀ (choice : String) ds acts steps limit (s : ResearchTeamState),
        steps < limit → choice ≠ "FINISH" → choice ≠ "VideoSearch" →
        choice ≠ "CommentFinder" →
        runResearchAux (choice :: ds) acts steps limit s =
          Except.error (RunError.unknownRoute choice)) ∧
    (∀ (choice : String) ds acts steps limit (s : SentimentState),
        steps < limit → choice ≠ "FINISH" → choice ≠ "Topic" → choice ≠ "Sentiment" →
        runAnalysisAux (choice :: ds) acts steps limit s =
          Except.error (RunError.unknownRoute choice)) ∧
    (∀ (choice : String) ds teams steps limit (s : SuperState),
        steps < limit → choice ≠ "FINISH" → choice ≠ "Research team" →
        choice ≠ "Analysis team" →
        runSuperAux (choice :: ds) teams steps limit s =
          Except.error (RunError.unknownRoute choice)) := by
  refine ⟨?_, ?_, ?_⟩
  · intro choice ds acts steps limit s hlt hf hv hc
    simp only [runResearchAux]
    rw [if_neg (not_le.mpr hlt), if_neg hf, if_neg hv, if_neg hc]
  · intro choice ds acts steps limit s hlt hf ht hs
    simp only [runAnalysisAux]
    rw [if_neg (not_le.mpr hlt), if_neg hf, if_neg ht, if_neg hs]
  · intro choice ds teams steps limit s hlt hf hr ha
    simp only [runSuperAux]
    rw [if_neg (not_le.mpr hlt), if_neg hf, if_neg hr, if_neg ha]

/-- Closed instance of `unknown_route_is_fatal`: the research supervisor
emitting the out-of-team name `Writer` aborts the run. -/
theorem unknown_route_is_fatal_witness :
    runResearchAux ["Writer"] [] 0 default_recursion_limit
      (enter_research_chain "q") = Except.error (RunError.unknownRoute "Writer") := by
  exact unknown_route_is_fatal.1 "Writer" [] [] 0 default_recursion_limit
    (enter_research_chain "q") (by decide) (by decide) (by decide) (by decide)

/-! ## C9: every hop returns through the router -/

/-- C9: in all three graph definitions, the router is the entry point and
the only conditional-edge source; every unconditional edge leaves a
non-router node and targets the router; `END` is reachable only through
the router's `FINISH` branch; and no edge or branch connects one member
node to another member node. -/
theorem supervisor_centric_topology :
    (research_graph_def.entry_point = "ResearchSupervisor" ∧
     research_graph_def.conditional_source = "ResearchSupervisor" ∧
     (∀ e ∈ research_graph_def.edges,
        e.1 ≠ "ResearchSupervisor" ∧ e.2 = "ResearchSupervisor") ∧
     (∀ b ∈ research_graph_def.conditional_map,
        b.2 = NodeOrEnd.terminal → b.1 = "FINISH") ∧
     (∀ b ∈ research_graph_def.conditional_map,
        b.2 = NodeOrEnd.terminal ∨ b.2 = NodeOrEnd.node b.1)) ∧
    (analysis_graph_def.entry_point = "AnalysisSupervisor" ∧
     analysis_graph_def.conditional_source = "AnalysisSupervisor" ∧
     (∀ e ∈ analysis_graph_def.edges,
        e.1 ≠ "AnalysisSupervisor" ∧ e.2 = "AnalysisSupervisor") ∧
     (∀ b ∈ analysis_graph_def.conditional_map,
        b.2 = NodeOrEnd.terminal → b.1 = "FINISH") ∧
     (∀ b ∈ analysis_graph_def.conditional_map,
        b.2 = NodeOrEnd.terminal ∨ b.2 = NodeOrEnd.node b.1)) ∧
    (main_graph_def.entry_point = "SuperSupervisor" ∧
     main_graph_def.conditional_source = "SuperSupervisor" ∧
     (∀ e ∈ main_graph_def.edges,
        e.1 ≠ "SuperSupervisor" ∧ e.2 = "SuperSupervisor") ∧
     (∀ b ∈ main_graph_def.conditional_map,
        b.2 = NodeOrEnd.terminal → b.1 = "FINISH") ∧
     (∀ b ∈ main_graph_def.conditional_map,
        b.2 = NodeOrEnd.terminal ∨ b.2 = NodeOrEnd.node b.1)) := by
  refine ⟨⟨rfl, rfl, by decide, by decide, by decide⟩,
    ⟨rfl, rfl, by decide, by decide, by decide⟩,
    ⟨rfl, rfl, by decide, by decide, by decide⟩⟩

/-- Closed instance of `supervisor_centric_topology`: the edge out of the
`Topic` member node targets the analysis router. -/
theorem supervisor_centric_topology_witness :
    ("Topic", "AnalysisSupervisor") ∈ analysis_graph_def.edges ∧
    ("Topic", "AnalysisSupervisor").2 = "AnalysisSupervisor" := by
  refine ⟨by decide, ?_⟩
  exact (supervisor_centric_topology.2.1.2.2.1 ("Topic", "AnalysisSupervisor") (by decide)).2

/-! ## C7: the double drive duplicates the turn -/

/-- A successful main-graph run only ever appends to the message log. -/
theorem runSuperAux_messages_append (ds : List String) :
    ∀ (teams : List TeamOracle) (steps limit : Nat) (s r : SuperState),
      runSuperAux ds teams steps limit s = Except.ok r →
      ∃ g, r.messages = s.messages ++ g := by
  induction ds with
  | nil =>
      intro teams steps limit s r h
      simp [runSuperAux] at h
  | cons choice ds ih =>
      intro teams steps limit s r h
      simp only [runSuperAux] at h
      by_cases h0 : limit ≤ steps
      · rw [if_pos h0] at h
        cases h
      · rw [if_neg h0] at h
        by_cases hF : choice = "FINISH"
        · rw [if_pos hF] at h
          cases h
          exact ⟨(supervisorUpdate choice).messages.getD [], rfl⟩
        · rw [if_neg hF] at h
          by_cases hR : choice = "Research team"
          · rw [if_pos hR] at h
            by_cases h1 : limit ≤ steps + 1
            · rw [if_pos h1] at h
              cases h
            · rw [if_neg h1] at h
              cases teams with
              | nil => cases h
              | cons o os =>
                  dsimp only at h
                  cases heq : researchTeamNode o (applySuperUpdate s (supervisorUpdate choice)) with
                  | error e => rw [heq] at h; cases h
                  | ok u =>
                      rw [heq] at h
                      obtain ⟨g, hg⟩ := ih os (steps + 2) limit _ r h
                      refine ⟨(supervisorUpdate choice).messages.getD [] ++
                        u.messages.getD [] ++ g, ?_⟩
                      simp only [applySuperUpdate] at hg
                      simp [hg]
          · rw [if_neg hR] at h
            by_cases hA : choice = "Analysis team"
            · rw [if_pos hA] at h
              by_cases h1 : limit ≤ steps + 1
              · rw [if_pos h1] at h
                cases h
              · rw [if_neg h1] at h
                cases teams with
                | nil => cases h
                | cons o os =>
                    dsimp only at h
                    cases heq : get_messages_and_documents o
                        (applySuperUpdate s (supervisorUpdate choice)) with
                    | error e => rw [heq] at h; cases h
                    | ok u =>
                        rw [heq] at h
                        obtain ⟨g, hg⟩ := ih os (steps + 2) limit _ r h
                        refine ⟨(supervisorUpdate choice).messages.getD [] ++
                          u.messages.getD [] ++ g, ?_⟩
                        simp only [applySuperUpdate] at hg
                        simp [hg]
            · rw [if_neg hA] at h
              cases h

/-- A turn in which the super supervisor immediately answers FINISH: no
team runs, the only new message a single pass should contribute is the
question itself. -/
def finish_oracle : DriveOracle := { decisions := ["FINISH"], teams := [] }

/-- An empty conversation checkpoint (fresh thread). -/
def c7_checkpoint : SuperState := { messages := [], documents := [], next := "" }

/-- C7 fails on the code: driving one turn with the streaming pass and
then the final authoritative pass (both invoked with the same
`initial_state` on the same `thread_id`, as `analyze_video_stream` does)
appends the question twice — the checkpointed log does not grow by
exactly the new turn's messages. -/
theorem double_drive_counterexample :
    double_drive finish_oracle finish_oracle c7_checkpoint "what is the sentiment?" =
      Except.ok { messages := [HumanMessage "what is the sentiment?" none,
                    HumanMessage "what is the sentiment?" none],
                  documents := [], next := "FINISH" } ∧
    [HumanMessage "what is the sentiment?" none, HumanMessage "what is the sentiment?" none] ≠
      c7_checkpoint.messages ++ [HumanMessage "what is the sentiment?" none] := by
  exact ⟨rfl, by decide⟩

/-- C7 as amended: on every turn the double drive commits, beyond the
prior checkpoint, the question and the first pass's generated messages AND
a second copy of the question with the second pass's generated messages —
the question is re-appended and the turn re-run by the final pass. -/
theorem double_drive_appends_question_twice :
    ∀ (o1 o2 : DriveOracle) (cp : SuperState) (q : String) (r : SuperState),
      double_drive o1 o2 cp q = Except.ok r →
      ∃ g1 g2, r.messages =
        cp.messages ++ [HumanMessage q none] ++ g1 ++ [HumanMessage q none] ++ g2 := by
  intro o1 o2 cp q r h
  unfold double_drive at h
  cases heq : invokeWithCheckpoint o1 cp q with
  | error e => rw [heq] at h; cases h
  | ok c1 =>
      rw [heq] at h
      unfold invokeWithCheckpoint at heq h
      obtain ⟨g1, hg1⟩ := runSuperAux_messages_append o1.decisions o1.teams 0
        default_recursion_limit _ c1 heq
      obtain ⟨g2, hg2⟩ := runSuperAux_messages_append o2.decisions o2.teams 0
        default_recursion_limit _ r h
      refine ⟨g1, g2, ?_⟩
      simp only at hg1 hg2
      rw [hg2, hg1]

/-- Closed instance of `double_drive_appends_question_twice` at the
concrete FINISH-only turn. -/
theorem double_drive_appends_question_twice_witness :
    ∃ g1 g2, ([HumanMessage "q" none, HumanMessage "q" none] : List BaseMessage) =
      c7_checkpoint.messages ++ [HumanMessage "q" none] ++ g1 ++ [HumanMessage "q" none] ++ g2 := by
  have h := double_drive_appends_question_twice finish_oracle finish_oracle c7_checkpoint "q"
    { messages := [HumanMessage "q" none, HumanMessage "q" none], documents := [],
      next := "FINISH" } rfl
  simpa using h

/-! ## C8: the step budget is enforced and its error is its own kind -/

/-- Lists agreeing on a window agree on every shorter window. -/
theorem take_agree_mono {α : Type} (l1 l2 : List α) (m n : Nat) (hnm : n ≤ m)
    (h : l1.take m = l2.take m) : l1.take n = l2.take n := by
  have h1 : l1.take n = (l1.take m).take n := by
    rw [List.take_take, Nat.min_eq_left hnm]
  have h2 : l2.take n = (l2.take m).take n := by
    rw [List.take_take, Nat.min_eq_left hnm]
  rw [h1, h2, h]

/-- Evaluation of the `Research team` node when the inner supervisor's
first decision is FINISH: one echoed message and no documents. -/
theorem researchTeamNode_finish (o : TeamOracle) (rest : List String) (s : SuperState)
    (m : BaseMessage) (ho : o.decisions = "FINISH" :: rest)
    (hm : s.messages.getLast? = some m) :
    researchTeamNode o s =
      Except.ok { messages := some [HumanMessage m.content none], documents := none,
                  next := none } := by
  simp [researchTeamNode, get_last_message, hm, ho, runResearchAux, default_recursion_limit,
    enter_research_chain, applyResearchUpdate, supervisorUpdate, research_chain_with_docs,
    join_graph]

/-- Evaluation of the `Analysis team` node when the inner supervisor's
first decision is FINISH: one echoed message plus the handed-down
documents, included in the update only when non-empty. -/
theorem get_messages_and_documents_finish (o : TeamOracle) (rest : List String)
    (s : SuperState) (m : BaseMessage) (ho : o.decisions = "FINISH" :: rest)
    (hm : s.messages.getLast? = some m) :
    get_messages_and_documents o s =
      Except.ok { messages := some [HumanMessage m.content none],
                  documents := if s.documents.isEmpty then none else some s.documents,
                  next := none } := by
  simp [get_messages_and_documents, get_last_message, hm, ho, runAnalysisAux,
    default_recursion_limit, enter_sentiment_chain, applySentimentUpdate, supervisorUpdate,
    join_graph]

/-- A research-machine run consults its oracles only inside the budget
window: streams agreeing on the first `limit - steps + 1` entries give
identical results, so nothing beyond the step bound is ever executed. -/
theorem runResearchAux_window (limit : Nat) :
    ∀ (ds1 ds2 : List String) (acts1 acts2 : List AgentResult) (steps : Nat)
      (s : ResearchTeamState),
      ds1.take (limit - steps + 1) = ds2.take (limit - steps + 1) →
      acts1.take (limit - steps + 1) = acts2.take (limit - steps + 1) →
      runResearchAux ds1 acts1 steps limit s = runResearchAux ds2 acts2 steps limit s := by
  intro ds1
  induction ds1 with
  | nil =>
      intro ds2 acts1 acts2 steps s hds _
      cases ds2 with
      | nil => rfl
      | cons c2 t2 =>
          rw [List.take_nil, List.take_succ_cons] at hds
          cases hds
  | cons c t1 ih =>
      intro ds2 acts1 acts2 steps s hds hacts
      cases ds2 with
      | nil =>
          rw [List.take_nil, List.take_succ_cons] at hds
          cases hds
      | cons c2 t2 =>
          rw [List.take_succ_cons, List.take_succ_cons] at hds
          injection hds with hc htail
          subst hc
          simp only [runResearchAux]
          by_cases h0 : limit ≤ steps
          · rw [if_pos h0, if_pos h0]
          · rw [if_neg h0, if_neg h0]
            by_cases hF : c = "FINISH"
            · rw [if_pos hF, if_pos hF]
            · rw [if_neg hF, if_neg hF]
              by_cases hV : c = "VideoSearch"
              · rw [if_pos hV, if_pos hV]
                by_cases h1 : limit ≤ steps + 1
                · rw [if_pos h1, if_pos h1]
                · rw [if_neg h1, if_neg h1]
                  cases acts1 with
                  | nil =>
                      cases acts2 with
                      | nil => rfl
                      | cons r2 rs2 =>
                          rw [List.take_nil, List.take_succ_cons] at hacts
                          cases hacts
                  | cons r1 rs1 =>
                      cases acts2 with
                      | nil =>
                          rw [List.take_succ_cons, List.take_nil] at hacts
                          cases hacts
                      | cons r2 rs2 =>
                          rw [List.take_succ_cons, List.take_succ_cons] at hacts
                          injection hacts with hr hrs
                          subst hr
                          dsimp only
                          refine ih t2 rs1 rs2 (steps + 2) _ ?_ ?_
                          · exact take_agree_mono t1 t2 (limit - steps) _ (by omega) htail
                          · exact take_agree_mono rs1 rs2 (limit - steps) _ (by omega) hrs
              · rw [if_neg hV, if_neg hV]
                by_cases hC : c = "CommentFinder"
                · rw [if_pos hC, if_pos hC]
                  by_cases h1 : limit ≤ steps + 1
                  · rw [if_pos h1, if_pos h1]
                  · rw [if_neg h1, if_neg h1]
                    cases acts1 with
                    | nil =>
                        cases acts2 with
                        | nil => rfl
                        | cons r2 rs2 =>
                            rw [List.take_nil, List.take_succ_cons] at hacts
                            cases hacts
                    | cons r1 rs1 =>
                        cases acts2 with
                        | nil =>
                            rw [List.take_succ_cons, List.take_nil] at hacts
                            cases hacts
                        | cons r2 rs2 =>
                            rw [List.take_succ_cons, List.take_succ_cons] at hacts
                            injection hacts with hr hrs
                            subst hr
                            dsimp only
                            refine ih t2 rs1 rs2 (steps + 2) _ ?_ ?_
                            · exact take_agree_mono t1 t2 (limit - steps) _ (by omega) htail
                            · exact take_agree_mono rs1 rs2 (limit - steps) _ (by omega) hrs
                · rw [if_neg hC, if_neg hC]

/-- The analysis-machine analogue of `runResearchAux_window`. -/
theorem runAnalysisAux_window (limit : Nat) :
    ∀ (ds1 ds2 : List String) (acts1 acts2 : List AgentResult) (steps : Nat)
      (s : SentimentState),
      ds1.take (limit - steps + 1) = ds2.take (limit - steps + 1) →
      acts1.take (limit - steps + 1) = acts2.take (limit - steps + 1) →
      runAnalysisAux ds1 acts1 steps limit s = runAnalysisAux ds2 acts2 steps limit s := by
  intro ds1
  induction ds1 with
  | nil =>
      intro ds2 acts1 acts2 steps s hds _
      cases ds2 with
      | nil => rfl
      | cons c2 t2 =>
          rw [List.take_nil, List.take_succ_cons] at hds
          cases hds
  | cons c t1 ih =>
      intro ds2 acts1 acts2 steps s hds hacts
      cases ds2 with
      | nil =>
          rw [List.take_nil, List.take_succ_cons] at hds
          cases hds
      | cons c2 t2 =>
          rw [List.take_succ_cons, List.take_succ_cons] at hds
          injection hds with hc htail
          subst hc
          simp only [runAnalysisAux]
          by_cases h0 : limit ≤ steps
          · rw [if_pos h0, if_pos h0]
          · rw [if_neg h0, if_neg h0]
            by_cases hF : c = "FINISH"
            · rw [if_pos hF, if_pos hF]
            · rw [if_neg hF, if_neg hF]
              by_cases hT : c = "Topic"
              · rw [if_pos hT, if_pos hT]
                by_cases h1 : limit ≤ steps + 1
                · rw [if_pos h1, if_pos h1]
                · rw [if_neg h1, if_neg h1]
                  cases acts1 with
                  | nil =>
                      cases acts2 with
                      | nil => rfl
                      | cons r2 rs2 =>
                          rw [List.take_nil, List.take_succ_cons] at hacts
                          cases hacts
                  | cons r1 rs1 =>
                      cases acts2 with
                      | nil =>
                          rw [List.take_succ_cons, List.take_nil] at hacts
                          cases hacts
                      | cons r2 rs2 =>
                          rw [List.take_succ_cons, List.take_succ_cons] at hacts
                          injection hacts with hr hrs
                          subst hr
                          dsimp only
                          refine ih t2 rs1 rs2 (steps + 2) _ ?_ ?_
                          · exact take_agree_mono t1 t2 (limit - steps) _ (by omega) htail
                          · exact take_agree_mono rs1 rs2 (limit - steps) _ (by omega) hrs
              · rw [if_neg hT, if_neg hT]
                by_cases hS : c = "Sentiment"
                · rw [if_pos hS, if_pos hS]
                  by_cases h1 : limit ≤ steps + 1
                  · rw [if_pos h1, if_pos h1]
                  · rw [if_neg h1, if_neg h1]
                    cases acts1 with
                    | nil =>
                        cases acts2 with
                        | nil => rfl
                        | cons r2 rs2 =>
                            rw [List.take_nil, List.take_succ_cons] at hacts
                            cases hacts
                    | cons r1 rs1 =>
                        cases acts2 with
                        | nil =>
                            rw [List.take_succ_cons, List.take_nil] at hacts
                            cases hacts
                        | cons r2 rs2 =>
                            rw [List.take_succ_cons, List.take_succ_cons] at hacts
                            injection hacts with hr hrs
                            subst hr
                            dsimp only
                            refine ih t2 rs1 rs2 (steps + 2) _ ?_ ?_
                            · exact take_agree_mono t1 t2 (limit - steps) _ (by omega) htail
                            · exact take_agree_mono rs1 rs2 (limit - steps) _ (by omega) hrs
                · rw [if_neg hS, if_neg hS]

/-- The system-machine analogue of `runResearchAux_window`: two decision
and team-oracle streams agreeing on the budget window drive the main
graph to the same outcome. -/
theorem runSuperAux_window (limit : Nat) :
    ∀ (ds1 ds2 : List String) (teams1 teams2 : List TeamOracle) (steps : Nat)
      (s : SuperState),
      ds1.take (limit - steps + 1) = ds2.take (limit - steps + 1) →
      teams1.take (limit - steps + 1) = teams2.take (limit - steps + 1) →
      runSuperAux ds1 teams1 steps limit s = runSuperAux ds2 teams2 steps limit s := by
  intro ds1
  induction ds1 with
  | nil =>
      intro ds2 teams1 teams2 steps s hds _
      cases ds2 with
      | nil => rfl
      | cons c2 t2 =>
          rw [List.take_nil, List.take_succ_cons] at hds
          cases hds
  | cons c t1 ih =>
      intro ds2 teams1 teams2 steps s hds hteams
      cases ds2 with
      | nil =>
          rw [List.take_nil, List.take_succ_cons] at hds
          cases hds
      | cons c2 t2 =>
          rw [List.take_succ_cons, List.take_succ_cons] at hds
          injection hds with hc htail
          subst hc
          simp only [runSuperAux]
          by_cases h0 : limit ≤ steps
          · rw [if_pos h0, if_pos h0]
          · rw [if_neg h0, if_neg h0]
            by_cases hF : c = "FINISH"
            · rw [if_pos hF, if_pos hF]
            · rw [if_neg hF, if_neg hF]
              by_cases hR : c = "Research team"
              · rw [if_pos hR, if_pos hR]
                by_cases h1 : limit ≤ steps + 1
                · rw [if_pos h1, if_pos h1]
                · rw [if_neg h1, if_neg h1]
                  cases teams1 with
                  | nil =>
                      cases teams2 with
                      | nil => rfl
                      | cons o2 os2 =>
                          rw [List.take_nil, List.take_succ_cons] at hteams
                          cases hteams
                  | cons o1 os1 =>
                      cases teams2 with
                      | nil =>
                          rw [List.take_succ_cons, List.take_nil] at hteams
                          cases hteams
                      | cons o2 os2 =>
                          rw [List.take_succ_cons, List.take_succ_cons] at hteams
                          injection hteams with ho hos
                          subst ho
                          dsimp only
                          cases researchTeamNode o1
                              (applySuperUpdate s (supervisorUpdate c)) with
                          | error e => rfl
                          | ok u =>
                              dsimp only
                              refine ih t2 os1 os2 (steps + 2) _ ?_ ?_
                              · exact take_agree_mono t1 t2 (limit - steps) _ (by omega) htail
                              · exact take_agree_mono os1 os2 (limit - steps) _ (by omega) hos
              · rw [if_neg hR, if_neg hR]
                by_cases hA : c = "Analysis team"
                · rw [if_pos hA, if_pos hA]
                  by_cases h1 : limit ≤ steps + 1
                  · rw [if_pos h1, if_pos h1]
                  · rw [if_neg h1, if_neg h1]
                    cases teams1 with
                    | nil =>
                        cases teams2 with
                        | nil => rfl
                        | cons o2 os2 =>
                            rw [List.take_nil, List.take_succ_cons] at hteams
                            cases hteams
                    | cons o1 os1 =>
                        cases teams2 with
                        | nil =>
                            rw [List.take_succ_cons, List.take_nil] at hteams
                            cases hteams
                        | cons o2 os2 =>
                            rw [List.take_succ_cons, List.take_succ_cons] at hteams
                            injection hteams with ho hos
                            subst ho
                            dsimp only
                            cases get_messages_and_documents o1
                                (applySuperUpdate s (supervisorUpdate c)) with
                            | error e => rfl
                            | ok u =>
                                dsimp only
                                refine ih t2 os1 os2 (steps + 2) _ ?_ ?_
                                · exact take_agree_mono t1 t2 (limit - steps) _
                                    (by omega) htail
                                · exact take_agree_mono os1 os2 (limit - steps) _
                                    (by omega) hos
                · rw [if_neg hA, if_neg hA]

/-- Any research-machine decision sequence that keeps routing to members
(in any mix) past the step budget ends in the recursion-limit error. -/
theorem runResearchAux_overrun (limit : Nat) :
    ∀ (n : Nat) (ds : List String) (acts : List AgentResult) (steps : Nat)
      (s : ResearchTeamState),
      limit < steps + 2 * n → steps ≤ limit → n ≤ ds.length → n ≤ acts.length →
      (∀ c ∈ ds.take n, c = "VideoSearch" ∨ c = "CommentFinder") →
      runResearchAux ds acts steps limit s = Except.error RunError.recursionLimit := by
  intro n
  induction n with
  | zero => intro ds acts steps s hbig hle _ _ _; omega
  | succ n ih =>
      intro ds acts steps s hbig hle hds hacts hmem
      cases ds with
      | nil => simp at hds
      | cons c t =>
          have hc : c = "VideoSearch" ∨ c = "CommentFinder" := by
            apply hmem
            rw [List.take_succ_cons]
            exact List.mem_cons_self c _
          simp only [runResearchAux]
          by_cases h0 : limit ≤ steps
          · rw [if_pos h0]
          · rw [if_neg h0]
            have hlen : n ≤ t.length := by
              simp only [List.length_cons] at hds
              omega
            have hmem2 : ∀ c2 ∈ t.take n, c2 = "VideoSearch" ∨ c2 = "CommentFinder" := by
              intro c2 hc2
              apply hmem
              rw [List.take_succ_cons]
              exact List.mem_cons_of_mem _ hc2
            rcases hc with hcv | hcc
            · subst hcv
              rw [if_neg (by decide : ¬(("VideoSearch" : String) = "FINISH")),
                if_pos (show ("VideoSearch" : String) = "VideoSearch" from rfl)]
              by_cases h1 : limit ≤ steps + 1
              · rw [if_pos h1]
              · rw [if_neg h1]
                cases acts with
                | nil => simp at hacts
                | cons r rs =>
                    dsimp only
                    have hlacts : n ≤ rs.length := by
                      simp only [List.length_cons] at hacts
                      omega
                    exact ih t rs (steps + 2) _ (by omega) (by omega) hlen hlacts hmem2
            · subst hcc
              rw [if_neg (by decide : ¬(("CommentFinder" : String) = "FINISH")),
                if_neg (by decide : ¬(("CommentFinder" : String) = "VideoSearch")),
                if_pos (show ("CommentFinder" : String) = "CommentFinder" from rfl)]
              by_cases h1 : limit ≤ steps + 1
              · rw [if_pos h1]
              · rw [if_neg h1]
                cases acts with
                | nil => simp at hacts
                | cons r rs =>
                    dsimp only
                    have hlacts : n ≤ rs.length := by
                      simp only [List.length_cons] at hacts
                      omega
                    exact ih t rs (steps + 2) _ (by omega) (by omega) hlen hlacts hmem2

/-- Any analysis-machine decision sequence that keeps routing to members
(in any mix) past the step budget ends in the recursion-limit error. -/
theorem runAnalysisAux_overrun (limit : Nat) :
    ∀ (n : Nat) (ds : List String) (acts : List AgentResult) (steps : Nat)
      (s : SentimentState),
      limit < steps + 2 * n → steps ≤ limit → n ≤ ds.length → n ≤ acts.length →
      (∀ c ∈ ds.take n, c = "Topic" ∨ c = "Sentiment") →
      runAnalysisAux ds acts steps limit s = Except.error RunError.recursionLimit := by
  intro n
  induction n with
  | zero => intro ds acts steps s hbig hle _ _ _; omega
  | succ n ih =>
      intro ds acts steps s hbig hle hds hacts hmem
      cases ds with
      | nil => simp at hds
      | cons c t =>
          have hc : c = "Topic" ∨ c = "Sentiment" := by
            apply hmem
            rw [List.take_succ_cons]
            exact List.mem_cons_self c _
          simp only [runAnalysisAux]
          by_cases h0 : limit ≤ steps
          · rw [if_pos h0]
          · rw [if_neg h0]
            have hlen : n ≤ t.length := by
              simp only [List.length_cons] at hds
              omega
            have hmem2 : ∀ c2 ∈ t.take n, c2 = "Topic" ∨ c2 = "Sentiment" := by
              intro c2 hc2
              apply hmem
              rw [List.take_succ_cons]
              exact List.mem_cons_of_mem _ hc2
            rcases hc with hct | hcs
            · subst hct
              rw [if_neg (by decide : ¬(("Topic" : String) = "FINISH")),
                if_pos (show ("Topic" : String) = "Topic" from rfl)]
              by_cases h1 : limit ≤ steps + 1
              · rw [if_pos h1]
              · rw [if_neg h1]
                cases acts with
                | nil => simp at hacts
                | cons r rs =>
                    dsimp only
                    have hlacts : n ≤ rs.length := by
                      simp only [List.length_cons] at hacts
                      omega
                    exact ih t rs (steps + 2) _ (by omega) (by omega) hlen hlacts hmem2
            · subst hcs
              rw [if_neg (by decide : ¬(("Sentiment" : String) = "FINISH")),
                if_neg (by decide : ¬(("Sentiment" : String) = "Topic")),
                if_pos (show ("Sentiment" : String) = "Sentiment" from rfl)]
              by_cases h1 : limit ≤ steps + 1
              · rw [if_pos h1]
              · rw [if_neg h1]
                cases acts with
                | nil => simp at hacts
                | cons r rs =>
                    dsimp only
                    have hlacts : n ≤ rs.length := by
                      simp only [List.length_cons] at hacts
                      omega
                    exact ih t rs (steps + 2) _ (by omega) (by omega) hlen hlacts hmem2

/-- Any system-machine decision sequence that keeps routing to teams past
the step budget never produces a normal completion, whatever the team
runs do: the loop is stopped by an error, not silently truncated. -/
theorem runSuperAux_no_ok (limit : Nat) :
    ∀ (n : Nat) (ds : List String) (teams : List TeamOracle) (steps : Nat)
      (s : SuperState),
      limit < steps + 2 * n → n ≤ ds.length →
      (∀ c ∈ ds.take n, c = "Research team" ∨ c = "Analysis team") →
      ∀ r, runSuperAux ds teams steps limit s ≠ Except.ok r := by
  intro n
  induction n with
  | zero =>
      intro ds teams steps s hbig _ _ r h
      cases ds with
      | nil => simp [runSuperAux] at h
      | cons c t =>
          simp only [runSuperAux] at h
          rw [if_pos (by omega : limit ≤ steps)] at h
          cases h
  | succ n ih =>
      intro ds teams steps s hbig hds hmem r h
      cases ds with
      | nil => simp at hds
      | cons c t =>
          have hc : c = "Research team" ∨ c = "Analysis team" := by
            apply hmem
            rw [List.take_succ_cons]
            exact List.mem_cons_self c _
          simp only [runSuperAux] at h
          by_cases h0 : limit ≤ steps
          · rw [if_pos h0] at h
            cases h
          · rw [if_neg h0] at h
            have hlen : n ≤ t.length := by
              simp only [List.length_cons] at hds
              omega
            have hmem2 : ∀ c2 ∈ t.take n, c2 = "Research team" ∨ c2 = "Analysis team" := by
              intro c2 hc2
              apply hmem
              rw [List.take_succ_cons]
              exact List.mem_cons_of_mem _ hc2
            rcases hc with hcr | hca
            · subst hcr
              rw [if_neg (by decide : ¬(("Research team" : String) = "FINISH")),
                if_pos (show ("Research team" : String) = "Research team" from rfl)] at h
              by_cases h1 : limit ≤ steps + 1
              · rw [if_pos h1] at h
                cases h
              · rw [if_neg h1] at h
                cases teams with
                | nil => cases h
                | cons o os =>
                    dsimp only at h
                    cases heq : researchTeamNode o
                        (applySuperUpdate s (supervisorUpdate "Research team")) with
                    | error e =>
                        rw [heq] at h
                        cases h
                    | ok u =>
                        rw [heq] at h
                        exact ih t os (steps + 2) _ (by omega) hlen hmem2 r h
            · subst hca
              rw [if_neg (by decide : ¬(("Analysis team" : String) = "FINISH")),
                if_neg (by decide : ¬(("Analysis team" : String) = "Research team")),
                if_pos (show ("Analysis team" : String) = "Analysis team" from rfl)] at h
              by_cases h1 : limit ≤ steps + 1
              · rw [if_pos h1] at h
                cases h
              · rw [if_neg h1] at h
                cases teams with
                | nil => cases h
                | cons o os =>
                    dsimp only at h
                    cases heq : get_messages_and_documents o
                        (applySuperUpdate s (supervisorUpdate "Analysis team")) with
                    | error e =>
                        rw [heq] at h
                        cases h
                    | ok u =>
                        rw [heq] at h
                        exact ih t os (steps + 2) _ (by omega) hlen hmem2 r h

/-- When the nested team runs succeed (their supervisors finish at once),
any system-machine decision sequence that keeps routing to teams (in any
mix) past the step budget ends in the recursion-limit error. -/
theorem runSuperAux_overrun (limit : Nat) :
    ∀ (n : Nat) (ds : List String) (teams : List TeamOracle) (steps : Nat)
      (s : SuperState),
      limit < steps + 2 * n → steps ≤ limit → n ≤ ds.length → n ≤ teams.length →
      (∀ c ∈ ds.take n, c = "Research team" ∨ c = "Analysis team") →
      (∀ o ∈ teams.take n, o.decisions.head? = some "FINISH") →
      s.messages ≠ [] →
      runSuperAux ds teams steps limit s = Except.error RunError.recursionLimit := by
  intro n
  induction n with
  | zero => intro ds teams steps s hbig hle _ _ _ _ _; omega
  | succ n ih =>
      intro ds teams steps s hbig hle hds hteams hmem hfin hne
      cases ds with
      | nil => simp at hds
      | cons c t =>
          have hc : c = "Research team" ∨ c = "Analysis team" := by
            apply hmem
            rw [List.take_succ_cons]
            exact List.mem_cons_self c _
          simp only [runSuperAux]
          by_cases h0 : limit ≤ steps
          · rw [if_pos h0]
          · rw [if_neg h0]
            have hlen : n ≤ t.length := by
              simp only [List.length_cons] at hds
              omega
            have hmem2 : ∀ c2 ∈ t.take n, c2 = "Research team" ∨ c2 = "Analysis team" := by
              intro c2 hc2
              apply hmem
              rw [List.take_succ_cons]
              exact List.mem_cons_of_mem _ hc2
            obtain ⟨m, hm⟩ : ∃ m, s.messages.getLast? = some m := by
              cases hg : s.messages.getLast? with
              | none => exact absurd (List.getLast?_eq_none_iff.mp hg) hne
              | some m => exact ⟨m, rfl⟩
            cases teams with
            | nil => simp at hteams
            | cons o os =>
                have hlteams : n ≤ os.length := by
                  simp only [List.length_cons] at hteams
                  omega
                have hfin2 : ∀ o2 ∈ os.take n, o2.decisions.head? = some "FINISH" := by
                  intro o2 ho2
                  apply hfin
                  rw [List.take_succ_cons]
                  exact List.mem_cons_of_mem _ ho2
                obtain ⟨rest, ho⟩ : ∃ rest, o.decisions = "FINISH" :: rest := by
                  have hh : o.decisions.head? = some "FINISH" := by
                    apply hfin
                    rw [List.take_succ_cons]
                    exact List.mem_cons_self o _
                  cases hd : o.decisions with
                  | nil => rw [hd] at hh; cases hh
                  | cons d dr =>
                      rw [hd] at hh
                      simp at hh
                      subst hh
                      exact ⟨dr, rfl⟩
                rcases hc with hcr | hca
                · subst hcr
                  rw [if_neg (by decide : ¬(("Research team" : String) = "FINISH")),
                    if_pos (show ("Research team" : String) = "Research team" from rfl)]
                  by_cases h1 : limit ≤ steps + 1
                  · rw [if_pos h1]
                  · rw [if_neg h1]
                    dsimp only
                    have hm1 : (applySuperUpdate s
                        (supervisorUpdate "Research team")).messages.getLast? = some m := by
                      simp [applySuperUpdate, supervisorUpdate, hm]
                    rw [researchTeamNode_finish o rest _ m ho hm1]
                    dsimp only
                    apply ih t os (steps + 2) _ (by omega) (by omega) hlen hlteams hmem2 hfin2
                    simp [applySuperUpdate]
                · subst hca
                  rw [if_neg (by decide : ¬(("Analysis team" : String) = "FINISH")),
                    if_neg (by decide : ¬(("Analysis team" : String) = "Research team")),
                    if_pos (show ("Analysis team" : String) = "Analysis team" from rfl)]
                  by_cases h1 : limit ≤ steps + 1
                  · rw [if_pos h1]
                  · rw [if_neg h1]
                    dsimp only
                    have hm1 : (applySuperUpdate s
                        (supervisorUpdate "Analysis team")).messages.getLast? = some m := by
                      simp [applySuperUpdate, supervisorUpdate, hm]
                    rw [get_messages_and_documents_finish o rest _ m ho hm1]
                    dsimp only
                    apply ih t os (steps + 2) _ (by omega) (by omega) hlen hlteams hmem2 hfin2
                    simp [applySuperUpdate]

/-- C8: every invocation of a team or system state machine is bounded by
the recursion limit, every router-decision sequence that would exceed the
bound is a fatal error, and that error is reported distinctly.  In order:
the three machines never consult their decision/capability oracles beyond
the budget window (streams agreeing on the first `limit - steps + 1`
entries are indistinguishable, so at most that many node steps execute);
any mix of member choices kept up past the budget drives the Research and
Analysis machines into the recursion-limit error; the system machine under
such a sequence never reaches a normal completion, and reaches exactly the
recursion-limit error whenever its team invocations succeed; and the
driver's streamed error event for the recursion limit differs from the
event for every capability failure. -/
theorem step_budget_enforced :
    (∀ (limit steps : Nat) (ds1 ds2 : List String) (acts1 acts2 : List AgentResult)
        (s : ResearchTeamState),
        ds1.take (limit - steps + 1) = ds2.take (limit - steps + 1) →
        acts1.take (limit - steps + 1) = acts2.take (limit - steps + 1) →
        runResearchAux ds1 acts1 steps limit s = runResearchAux ds2 acts2 steps limit s) ∧
    (∀ (limit steps : Nat) (ds1 ds2 : List String) (acts1 acts2 : List AgentResult)
        (s : SentimentState),
        ds1.take (limit - steps + 1) = ds2.take (limit - steps + 1) →
        acts1.take (limit - steps + 1) = acts2.take (limit - steps + 1) →
        runAnalysisAux ds1 acts1 steps limit s = runAnalysisAux ds2 acts2 steps limit s) ∧
    (∀ (limit steps : Nat) (ds1 ds2 : List String) (teams1 teams2 : List TeamOracle)
        (s : SuperState),
        ds1.take (limit - steps + 1) = ds2.take (limit - steps + 1) →
        teams1.take (limit - steps + 1) = teams2.take (limit - steps + 1) →
        runSuperAux ds1 teams1 steps limit s = runSuperAux ds2 teams2 steps limit s) ∧
    (∀ (limit n : Nat) (ds : List String) (acts : List AgentResult)
        (s : ResearchTeamState),
        limit < 2 * n → n ≤ ds.length → n ≤ acts.length →
        (∀ c ∈ ds.take n, c = "VideoSearch" ∨ c = "CommentFinder") →
        runResearchAux ds acts 0 limit s = Except.error RunError.recursionLimit) ∧
    (∀ (limit n : Nat) (ds : List String) (acts : List AgentResult)
        (s : SentimentState),
        limit < 2 * n → n ≤ ds.length → n ≤ acts.length →
        (∀ c ∈ ds.take n, c = "Topic" ∨ c = "Sentiment") →
        runAnalysisAux ds acts 0 limit s = Except.error RunError.recursionLimit) ∧
    (∀ (limit n : Nat) (ds : List String) (teams : List TeamOracle) (s : SuperState),
        limit < 2 * n → n ≤ ds.length →
        (∀ c ∈ ds.take n, c = "Research team" ∨ c = "Analysis team") →
        ∀ r, runSuperAux ds teams 0 limit s ≠ Except.ok r) ∧
    (∀ (limit n : Nat) (ds : List String) (teams : List TeamOracle) (s : SuperState),
        limit < 2 * n → n ≤ ds.length → n ≤ teams.length →
        (∀ c ∈ ds.take n, c = "Research team" ∨ c = "Analysis team") →
        (∀ o ∈ teams.take n, o.decisions.head? = some "FINISH") →
        s.messages ≠ [] →
        runSuperAux ds teams 0 limit s = Except.error RunError.recursionLimit) ∧
    (∀ msg, analysis_error_event RunError.recursionLimit ≠
        analysis_error_event (RunError.capabilityFailure msg)) := by
  refine ⟨fun limit steps ds1 ds2 acts1 acts2 s h1 h2 =>
      runResearchAux_window limit ds1 ds2 acts1 acts2 steps s h1 h2,
    fun limit steps ds1 ds2 acts1 acts2 s h1 h2 =>
      runAnalysisAux_window limit ds1 ds2 acts1 acts2 steps s h1 h2,
    fun limit steps ds1 ds2 teams1 teams2 s h1 h2 =>
      runSuperAux_window limit ds1 ds2 teams1 teams2 steps s h1 h2,
    ?_, ?_, ?_, ?_, ?_⟩
  · intro limit n ds acts s hbig hds hacts hmem
    exact runResearchAux_overrun limit n ds acts 0 s (by omega) (by omega) hds hacts hmem
  · intro limit n ds acts s hbig hds hacts hmem
    exact runAnalysisAux_overrun limit n ds acts 0 s (by omega) (by omega) hds hacts hmem
  · intro limit n ds teams s hbig hds hmem
    exact runSuperAux_no_ok limit n ds teams 0 s (by omega) hds hmem
  · intro limit n ds teams s hbig hds hteams hmem hfin hne
    exact runSuperAux_overrun limit n ds teams 0 s (by omega) (by omega) hds hteams
      hmem hfin hne
  · intro msg h
    have h2 := congrArg ErrorEvent.content h
    simp only [analysis_error_event, format_error_message, str_of_exception] at h2
    have h3 := congrArg String.data h2
    simp [String.data_append] at h3

/-- A Topic agent output used in closed budget instances. -/
def c8_result : AgentResult :=
  { output := "topic summary", intermediate_steps := [] }

/-- Closed instance of `step_budget_enforced`: the mixed member sequence
Topic-then-Sentiment against a budget of 3 steps overruns it and produces
the recursion-limit error. -/
theorem step_budget_enforced_witness :
    runAnalysisAux ["Topic", "Sentiment"] [c8_result, c8_result] 0 3
      (enter_sentiment_chain "q" []) = Except.error RunError.recursionLimit := by
  exact step_budget_enforced.2.2.2.2.1 3 2 ["Topic", "Sentiment"] [c8_result, c8_result]
    (enter_sentiment_chain "q" []) (by decide) (by decide) (by decide) (by decide)
